import Mathlib

/-!
Shallow embedding of the `atomic_lifo` crate (src/lib.rs): a lock-free LIFO
stack with a generation-based hazard-reclamation subsystem.

Modelling choices:
* `usize` is modelled as `Nat` with explicit wrap at `2^64` where the source
  uses a wrapping `fetch_add` (the `hazard_generation` and `hazard_threshold`
  counters); `usize::MAX` is `2^64 - 1`.
* The atomics of `AtomicLifo` become plain fields of a state record; each
  method becomes a function on that record, translating the source line by
  line under a sequential (single-interleaving) semantics in which every
  compare-and-swap succeeds on its first attempt.
* The linked stack of `Node`s is a `List α` of the stored values (a `Node`
  owns exactly one value and a next link).  The hazard list is a list of
  `HazardRec`; a retired `Node` shell no longer owns its value, so a record
  carries only its stored generation, and "physically freeing" a record is
  dropping it from the list (the dropped suffix is returned so that theorems
  can speak about what was freed).
* `pop`'s entry spin loop (`hazard_threshold > 500_000`) cannot make progress
  in a sequential semantics, so it is a distinguished outcome `spins`; the
  `assert_ne!` overflow abort is the outcome `panics`.
-/

/-- Number of values of `usize` (modelled as 64-bit). -/
def USIZE : Nat := 2 ^ 64

/-- The value `usize::MAX`. -/
def USIZE_MAX : Nat := USIZE - 1

/-- `MAX_DIFF` from `free_hazard_list`: `usize::MAX / 2`. -/
def MAX_DIFF : Nat := USIZE_MAX / 2

/-- A retirement record (`HazardNode` in the source): the generation stamped
at detachment time.  The wrapped `Node` shell and the `next` link are
represented by the record's position in the hazard list. -/
structure HazardRec where
  generation : Nat
deriving DecidableEq, Repr

/-- State of `AtomicLifo<T>`: its six atomic fields.  `head` is the value
stack (list head = Top), `hazard_head` the retirement list. -/
structure AtomicLifo (α : Type) where
  concurrent_pop_count : Nat
  hazard_generation : Nat
  hazard_threshold : Nat
  hazard_lock : Bool
  hazard_head : List HazardRec
  head : List α
deriving DecidableEq, Repr

namespace AtomicLifo

/-- `AtomicLifo::new()`: everything zero / false / null. -/
def new {α : Type} : AtomicLifo α :=
  { concurrent_pop_count := 0
    hazard_generation := 0
    hazard_threshold := 0
    hazard_lock := false
    hazard_head := []
    head := [] }

/-- The oldness test of `free_hazard_list`:
`next.generation < count && next.generation.abs_diff(count) <= MAX_DIFF`. -/
def isOldB (count : Nat) (r : HazardRec) : Bool :=
  decide (r.generation < count) && decide (Nat.dist r.generation count ≤ MAX_DIFF)

/-- The walk of `free_hazard_list` over the hazard list: starting at the head
record (which is never freed), look at each record's successor; at the first
successor that passes `isOldB`, sever the link (`cur.next = null_mut()`) and
free that successor together with the whole chain behind it.  Returns
(records kept, records freed). -/
def pruneWalk (count : Nat) : List HazardRec → List HazardRec × List HazardRec
  | [] => ([], [])
  | [cur] => ([cur], [])
  | cur :: next :: rest =>
    if isOldB count next then
      ([cur], next :: rest)
    else
      let p := pruneWalk count (next :: rest)
      (cur :: p.1, p.2)

/-- `AtomicLifo::free_hazard_list(count)`: try to take the hazard lock with a
`swap`; if it was already held, return with no change at all.  Otherwise the
deferred release restores the lock to `false` on every exit path; the body
resets `hazard_threshold` to 0 and runs the walk. -/
def free_hazard_list {α : Type} (s : AtomicLifo α) (count : Nat) : AtomicLifo α :=
  if s.hazard_lock then s
  else
    { s with hazard_lock := false
             hazard_threshold := 0
             hazard_head := (pruneWalk count s.hazard_head).1 }

/-- `AtomicLifo::push(value)`: allocate a node owning the value and CAS-link
it as the new Top (the CAS succeeds at once in the sequential semantics). -/
def push {α : Type} (s : AtomicLifo α) (v : α) : AtomicLifo α :=
  { s with head := v :: s.head }

/-- Caller-visible outcome of `pop` in the sequential semantics. -/
inductive PopResult (α : Type) where
  | spins : PopResult α
  | panics : PopResult α
  | ok : Option α → AtomicLifo α → PopResult α
deriving DecidableEq, Repr

/-- The `defer!` block of `pop`: `fetch_sub(1)` the in-flight counter; if the
fetched value was 1 (the decrement drained the counter to zero), `fetch_add`
the generation counter and call `free_hazard_list` with the pre-advance
generation value. -/
def popExit {α : Type} (s : AtomicLifo α) : AtomicLifo α :=
  let sub := s.concurrent_pop_count
  let s1 := { s with concurrent_pop_count := s.concurrent_pop_count - 1 }
  if sub ≠ 1 then s1
  else
    let haz_cnt := s1.hazard_generation
    free_hazard_list
      { s1 with hazard_generation := (haz_cnt + 1) % USIZE } haz_cnt

/-- `AtomicLifo::pop()`: spin while `hazard_threshold > 500_000` (in the
sequential semantics nothing can drain it, outcome `spins`); `assert_ne!`
that the fetched in-flight count is not `usize::MAX` (outcome `panics`);
otherwise increment the counter, CAS-detach the Top (returning `none` at once
when Top is null), move the value out, stamp a retirement record with the
current generation, CAS-link it onto the hazard list, bump
`hazard_threshold`; the `popExit` defer runs on every exit path. -/
def pop {α : Type} (s : AtomicLifo α) : PopResult α :=
  if s.hazard_threshold > 500000 then .spins
  else if s.concurrent_pop_count = USIZE_MAX then .panics
  else
    let s0 := { s with concurrent_pop_count := s.concurrent_pop_count + 1 }
    match s0.head with
    | [] => .ok none (popExit s0)
    | v :: rest =>
      let count := s0.hazard_generation
      let s1 := { s0 with head := rest
                          hazard_head := { generation := count } :: s0.hazard_head }
      let s2 := { s1 with hazard_threshold := (s1.hazard_threshold + 1) % USIZE }
      .ok (some v) (popExit s2)

/-- Run `pop`, extracting the result and post-state of a completed call
(the `spins`/`panics` outcomes do not arise from the quiescent states these
helpers are used at). -/
def runPop {α : Type} (s : AtomicLifo α) : Option α × AtomicLifo α :=
  match pop s with
  | .ok r s' => (r, s')
  | _ => (none, s)

/-- Run `n` sequential `pop` calls, collecting their results. -/
def runPops {α : Type} : Nat → AtomicLifo α → List (Option α) × AtomicLifo α
  | 0, s => ([], s)
  | n + 1, s =>
    let p := runPop s
    let q := runPops n p.2
    (p.1 :: q.1, q.2)

/-- A quiescent state: no pop in flight, threshold drained, lock free.  Every
state reachable by complete sequential calls from `new` is quiescent. -/
def Quiet {α : Type} (s : AtomicLifo α) : Prop :=
  s.concurrent_pop_count = 0 ∧ s.hazard_threshold = 0 ∧ s.hazard_lock = false

end AtomicLifo

open AtomicLifo

theorem usize_max_eq : USIZE_MAX = 18446744073709551615 := by
  norm_num [USIZE_MAX, USIZE]

theorem max_diff_eq : MAX_DIFF = 9223372036854775807 := by
  norm_num [MAX_DIFF, USIZE_MAX, USIZE]

/-- A quiescent pop on an empty stack: returns `none`, post-state explicit. -/
theorem pop_quiet_nil {α : Type} (s : AtomicLifo α) (hq : Quiet s)
    (hh : s.head = []) :
    pop s = .ok none
      { s with hazard_generation := (s.hazard_generation + 1) % USIZE
               hazard_head := (pruneWalk s.hazard_generation s.hazard_head).1 } := by
  obtain ⟨h1, h2, h3⟩ := hq
  simp only [pop, h2, hh, h1]
  rw [if_neg (by norm_num), if_neg (by rw [usize_max_eq]; norm_num)]
  simp only [popExit, free_hazard_list, h3]
  simp [h1, h2, h3]

/-- A quiescent pop on a non-empty stack: returns the Top value, post-state
explicit (value removed, retirement record stamped with the pre-advance
generation, generation advanced, threshold drained back to zero). -/
theorem pop_quiet_cons {α : Type} (s : AtomicLifo α) (hq : Quiet s)
    (v : α) (l : List α) (hh : s.head = v :: l) :
    pop s = .ok (some v)
      { s with head := l
               hazard_generation := (s.hazard_generation + 1) % USIZE
               hazard_head :=
                 (pruneWalk s.hazard_generation
                   ({ generation := s.hazard_generation } :: s.hazard_head)).1 } := by
  obtain ⟨h1, h2, h3⟩ := hq
  simp only [pop, h2, hh, h1]
  rw [if_neg (by norm_num), if_neg (by rw [usize_max_eq]; norm_num)]
  simp only [popExit, free_hazard_list, h3]
  simp [h1, h2, h3]

/-- The prune walk never frees the record at the head of the hazard list, so
the kept part of a quiescent pop is nonempty only structurally; what matters
for the stack theorems is that `Quiet` is preserved. -/
theorem pop_quiet_quiet {α : Type} (s : AtomicLifo α) (hq : Quiet s) :
    Quiet (runPop s).2 ∧ (runPop s).2.head = s.head.tail ∧
      (runPop s).1 = s.head.head? := by
  rcases hhead : s.head with _ | ⟨v, l⟩
  · rw [runPop, pop_quiet_nil s hq hhead]
    obtain ⟨h1, h2, h3⟩ := hq
    exact ⟨⟨h1, h2, h3⟩, by simp [hhead], by simp [hhead]⟩
  · rw [runPop, pop_quiet_cons s hq v l hhead]
    obtain ⟨h1, h2, h3⟩ := hq
    exact ⟨⟨h1, h2, h3⟩, by simp [hhead], by simp [hhead]⟩

/-- C10: `push` modifies only the Top pointer, linking exactly one new value
onto it; the in-flight-pop counter, generation counter,
retirements-since-last-prune counter, prune-lock flag and retirement-list
head are all unchanged — in particular nothing is freed (the hazard list is
untouched) and no prune pass is triggered: only `pop` calls
`free_hazard_list`. -/
theorem C10_push_frame {α : Type} (s : AtomicLifo α) (v : α) :
    (push s v).head = v :: s.head ∧
    (push s v).concurrent_pop_count = s.concurrent_pop_count ∧
    (push s v).hazard_generation = s.hazard_generation ∧
    (push s v).hazard_threshold = s.hazard_threshold ∧
    (push s v).hazard_lock = s.hazard_lock ∧
    (push s v).hazard_head = s.hazard_head := by
  simp [push]

theorem foldl_push_head {α : Type} (ps : List α) (s : AtomicLifo α) :
    (ps.foldl push s).head = ps.reverse ++ s.head := by
  induction ps generalizing s with
  | nil => simp
  | cons p ps ih => simp [ih, push]

theorem foldl_push_quiet {α : Type} (ps : List α) (s : AtomicLifo α)
    (hq : Quiet s) : Quiet (ps.foldl push s) := by
  induction ps generalizing s with
  | nil => exact hq
  | cons p ps ih => exact ih _ ⟨hq.1, hq.2.1, hq.2.2⟩

/-- Popping as many times as the stack holds yields exactly the stack values
in order, from a quiescent state. -/
theorem runPops_drain {α : Type} (l : List α) (s : AtomicLifo α)
    (hq : Quiet s) (hh : s.head = l) :
    (runPops l.length s).1 = l.map some ∧
      Quiet (runPops l.length s).2 ∧ (runPops l.length s).2.head = [] := by
  induction l generalizing s with
  | nil => exact ⟨rfl, hq, hh⟩
  | cons v t ih =>
    obtain ⟨hq', hh', hr⟩ := pop_quiet_quiet s hq
    rw [hh] at hh' hr
    simp only [List.length_cons, runPops]
    obtain ⟨a, b, c⟩ := ih (runPop s).2 hq' hh'
    exact ⟨by simp [a, hr], b, c⟩

/-- Popping an empty quiescent stack any number of times yields only `none`
and leaves the stack empty and quiescent. -/
theorem runPops_empty {α : Type} (k : Nat) (s : AtomicLifo α)
    (hq : Quiet s) (hh : s.head = []) :
    (runPops k s).1 = List.replicate k none ∧
      Quiet (runPops k s).2 ∧ (runPops k s).2.head = [] := by
  induction k generalizing s with
  | zero => exact ⟨rfl, hq, hh⟩
  | succ n ih =>
    obtain ⟨hq', hh', hr⟩ := pop_quiet_quiet s hq
    rw [hh] at hh' hr
    simp only [runPops]
    obtain ⟨a, b, c⟩ := ih (runPop s).2 hq' hh'
    exact ⟨by simp [a, hr, List.replicate_succ], b, c⟩

/-- C1: Pushing p1…pn sequentially on a fresh stack and then popping n times
yields pn, …, p1 (each wrapped in `some`), after which every further pop —
any number of them — returns `none`. -/
theorem C1_lifo_order {α : Type} (ps : List α) :
    ((runPops ps.length (ps.foldl push new)).1 = ps.reverse.map some) ∧
      ∀ k, (runPops k (runPops ps.length (ps.foldl push new)).2).1 =
        List.replicate k none := by
  have hq : Quiet (ps.foldl push (new (α := α))) :=
    foldl_push_quiet ps new ⟨rfl, rfl, rfl⟩
  have hh : (ps.foldl push (new (α := α))).head = ps.reverse := by
    simpa [new] using foldl_push_head ps new
  have hlen : ps.length = ps.reverse.length := (List.length_reverse ps).symm
  obtain ⟨a, b, c⟩ := runPops_drain ps.reverse (ps.foldl push new) hq hh
  rw [hlen]
  exact ⟨a, fun k => (runPops_empty k _ b c).1⟩

/-- An operation applied to the stack in a sequential run. -/
inductive Op (α : Type) where
  | push : α → Op α
  | pop : Op α
deriving DecidableEq, Repr

/-- Run a list of operations from a state, collecting every non-absent pop
result in order. -/
def runOps {α : Type} : List (Op α) → AtomicLifo α → AtomicLifo α × List α
  | [], s => (s, [])
  | Op.push v :: rest, s => runOps rest (push s v)
  | Op.pop :: rest, s =>
    let p := runPop s
    let q := runOps rest p.2
    (q.1, p.1.toList ++ q.2)

/-- The values pushed by a list of operations, in order. -/
def pushedOf {α : Type} : List (Op α) → List α
  | [] => []
  | Op.push v :: rest => v :: pushedOf rest
  | Op.pop :: rest => pushedOf rest

/-- C2: conservation. In any sequential run of pushes and pops from a
quiescent state, the multiset of non-absent pop results plus the multiset of
values still on the stack equals the multiset of pushed values plus what was
on the stack initially: no element is duplicated, fabricated, or silently
dropped, and the un-popped values are still on the stack (hence, by
`C1_lifo_order`-style draining, still poppable); the final state is again
quiescent. -/
theorem C2_conservation {α : Type} (ops : List (Op α)) (s : AtomicLifo α)
    (hq : Quiet s) :
    (((runOps ops s).2 : Multiset α) + ((runOps ops s).1.head : Multiset α) =
      (pushedOf ops : Multiset α) + (s.head : Multiset α)) ∧
      Quiet (runOps ops s).1 := by
  induction ops generalizing s with
  | nil => exact ⟨rfl, hq⟩
  | cons op rest ih =>
    cases op with
    | push v =>
      obtain ⟨ihEq, ihQ⟩ := ih (push s v) ⟨hq.1, hq.2.1, hq.2.2⟩
      refine ⟨?_, ihQ⟩
      simp only [runOps, pushedOf] at ihEq ⊢
      rw [ihEq]
      show (pushedOf rest : Multiset α) + ((v :: s.head : List α) : Multiset α) = _
      rw [← Multiset.cons_coe, ← Multiset.cons_coe, Multiset.cons_add,
        Multiset.add_cons]
    | pop =>
      obtain ⟨hq', hh', hr⟩ := pop_quiet_quiet s hq
      obtain ⟨ihEq, ihQ⟩ := ih (runPop s).2 hq'
      refine ⟨?_, ihQ⟩
      simp only [runOps, pushedOf]
      rcases hhead : s.head with _ | ⟨v, l⟩
      · rw [hhead] at hh' hr
        simp only [List.head?_nil, List.tail_nil] at hh' hr
        rw [hh'] at ihEq
        rw [hr]
        simpa using ihEq
      · rw [hhead] at hh' hr
        simp only [List.head?_cons, List.tail_cons] at hh' hr
        rw [hh'] at ihEq
        rw [hr]
        simp only [Option.toList_some, List.singleton_append]
        rw [← Multiset.cons_coe, ← Multiset.cons_coe, Multiset.cons_add,
          Multiset.add_cons, ihEq]

/-- Witness for `C2_conservation` at a concrete run. -/
theorem C2_conservation_witness :
    (((runOps [Op.push 1, Op.pop, Op.push 2] (new (α := Nat))).2 : Multiset Nat) +
        ((runOps [Op.push 1, Op.pop, Op.push 2] (new (α := Nat))).1.head : Multiset Nat) =
      (pushedOf [Op.push 1, Op.pop, Op.push 2] : Multiset Nat) +
        ((new (α := Nat)).head : Multiset Nat)) ∧
      Quiet (runOps [Op.push 1, Op.pop, Op.push 2] (new (α := Nat))).1 :=
  C2_conservation [Op.push 1, Op.pop, Op.push 2] new ⟨rfl, rfl, rfl⟩

/-- The prune walk only splits the hazard list: kept prefix ++ freed suffix
is the original list. -/
theorem pruneWalk_append (c : Nat) (l : List HazardRec) :
    (pruneWalk c l).1 ++ (pruneWalk c l).2 = l := by
  induction l with
  | nil => simp [pruneWalk]
  | cons a t ih =>
    cases t with
    | nil => simp [pruneWalk]
    | cons b r =>
      by_cases hb : isOldB c b
      · simp [pruneWalk, hb]
      · simp only [pruneWalk, hb, if_false, Bool.false_eq_true]
        simpa using ih

/-- If no record that has a predecessor passes the oldness test, the walk
frees nothing and the list is untouched. -/
theorem pruneWalk_no_old (c : Nat) (l : List HazardRec)
    (h : ∀ r ∈ l.tail, isOldB c r = false) : pruneWalk c l = (l, []) := by
  induction l with
  | nil => simp [pruneWalk]
  | cons a t ih =>
    cases t with
    | nil => simp [pruneWalk]
    | cons b r =>
      have hb : isOldB c b = false := h b (by simp)
      have ht : ∀ x ∈ (b :: r).tail, isOldB c x = false := by
        intro x hx
        exact h x (by simp at hx ⊢; exact Or.inr hx)
      simp only [pruneWalk, hb, Bool.false_eq_true, if_false]
      rw [ih ht]

/-- The kept part of the walk on a nonempty list starts with the original
head record (the head is never freed). -/
theorem pruneWalk_fst_head (c : Nat) (b : HazardRec) (t : List HazardRec) :
    (pruneWalk c (b :: t)).1 = b :: (pruneWalk c (b :: t)).1.tail := by
  cases t with
  | nil => simp [pruneWalk]
  | cons x r =>
    by_cases hx : isOldB c x
    · simp [pruneWalk, hx]
    · simp [pruneWalk, hx]

/-- When the walk frees a nonempty suffix, the first freed record passes the
oldness test and every record it skipped over (the kept records that have a
predecessor) does not: the walk cuts at the FIRST sufficiently old record. -/
theorem pruneWalk_freed_first (c : Nat) (l : List HazardRec)
    (r : HazardRec) (rest : List HazardRec)
    (h : (pruneWalk c l).2 = r :: rest) :
    isOldB c r = true ∧ ∀ x ∈ (pruneWalk c l).1.tail, isOldB c x = false := by
  induction l with
  | nil => simp [pruneWalk] at h
  | cons a t ih =>
    cases t with
    | nil => simp [pruneWalk] at h
    | cons b u =>
      by_cases hb : isOldB c b
      · simp only [pruneWalk, hb, if_true] at h ⊢
        obtain ⟨hbr, -⟩ := List.cons.injEq b u r rest ▸ h
        exact ⟨hbr ▸ hb, by simp⟩
      · simp only [pruneWalk, hb, Bool.false_eq_true, if_false] at h ⊢
        obtain ⟨h1, h2⟩ := ih h
        refine ⟨h1, ?_⟩
        intro x hx
        rw [List.tail_cons] at hx
        rw [pruneWalk_fst_head c b u] at hx
        rcases List.mem_cons.mp hx with hxb | hxt
        · rw [hxb]
          exact eq_false_of_ne_true hb
        · exact h2 x hxt

/-- C4: behaviour of a prune pass.  If the prune lock is already held, the
call changes nothing at all.  Otherwise the pass resets the
retirements-since-last-prune counter, releases the lock, and replaces the
retirement list by the kept part of the walk, where the walk (a) only splits
the list into kept prefix and freed suffix, (b) frees nothing when no record
with a predecessor is sufficiently old, and (c) when it does free a suffix,
the first freed record is sufficiently old and every kept record with a
predecessor is not — the first sufficiently old record is unlinked from its
predecessor and freed together with every record behind it. -/
theorem C4_prune_pass {α : Type} (s : AtomicLifo α) (c : Nat) :
    (s.hazard_lock = true → free_hazard_list s c = s) ∧
    (s.hazard_lock = false →
      free_hazard_list s c =
        { s with hazard_lock := false
                 hazard_threshold := 0
                 hazard_head := (pruneWalk c s.hazard_head).1 } ∧
      (pruneWalk c s.hazard_head).1 ++ (pruneWalk c s.hazard_head).2 =
        s.hazard_head ∧
      ((∀ r ∈ s.hazard_head.tail, isOldB c r = false) →
        pruneWalk c s.hazard_head = (s.hazard_head, [])) ∧
      (∀ r rest, (pruneWalk c s.hazard_head).2 = r :: rest →
        isOldB c r = true ∧
          ∀ x ∈ (pruneWalk c s.hazard_head).1.tail, isOldB c x = false)) := by
  constructor
  · intro h
    simp [free_hazard_list, h]
  · intro h
    refine ⟨by simp [free_hazard_list, h], pruneWalk_append c s.hazard_head,
      pruneWalk_no_old c s.hazard_head, ?_⟩
    intro r rest hfreed
    exact pruneWalk_freed_first c s.hazard_head r rest hfreed

/-- Witness for `C4_prune_pass`: a locked call leaves the state untouched,
and an unlocked call on a two-record list whose second record is old frees
exactly that record. -/
theorem C4_prune_pass_witness :
    (free_hazard_list { new (α := Nat) with hazard_lock := true } 7 =
      { new (α := Nat) with hazard_lock := true }) ∧
    free_hazard_list { new (α := Nat) with hazard_head := [⟨6⟩, ⟨2⟩] } 7 =
      { new (α := Nat) with
          hazard_head := (pruneWalk 7 [⟨6⟩, ⟨2⟩]).1 } := by
  constructor
  · exact (C4_prune_pass { new (α := Nat) with hazard_lock := true } 7).1 rfl
  · have h := ((C4_prune_pass
      { new (α := Nat) with hazard_head := [⟨6⟩, ⟨2⟩] } 7).2 rfl).1
    exact h

/-- The classification the spec describes for the prune pass: a generation
`g` is strictly older than the horizon `h` exactly when the unsigned
difference between `g` and `h`, taken in the direction that stays within half
the counter's representable range (the modular distance from `g` forward to
`h`), places `g` strictly behind `h`.  This is the spec's wording, written
down to be compared with the code's `isOldB`. -/
def olderSpecTest (g h : Nat) : Prop :=
  0 < (USIZE + h - g) % USIZE ∧ (USIZE + h - g) % USIZE ≤ MAX_DIFF

instance (g h : Nat) : Decidable (olderSpecTest g h) := by
  unfold olderSpecTest
  infer_instance

/-- C5 counterexample: the code's oldness test is NOT the wraparound-safe
modular distance test the claim describes.  With the horizon at `h = 2` just
after a wrap and a record stamped `g = usize::MAX - 5` just before the wrap,
the modular distance from `g` forward to `h` is 8 — well within half the
range, so the claimed test says "strictly older" — yet the code's test
(`g < h && abs_diff(g, h) <= MAX_DIFF`) rejects it because `g < h` fails,
and the prune walk therefore keeps the record. -/
theorem C5_counterexample :
    olderSpecTest (USIZE - 6) 2 ∧
    isOldB 2 ⟨USIZE - 6⟩ = false ∧
    pruneWalk 2 [⟨5⟩, ⟨USIZE - 6⟩] = ([⟨5⟩, ⟨USIZE - 6⟩], []) := by
  refine ⟨?_, ?_, ?_⟩
  · rw [olderSpecTest, max_diff_eq]
    norm_num [USIZE]
  · rw [isOldB]
    have : ¬ (USIZE - 6 < 2) := by norm_num [USIZE]
    simp [this]
  · have h : isOldB 2 ⟨USIZE - 6⟩ = false := by
      rw [isOldB]
      have : ¬ (USIZE - 6 < 2) := by norm_num [USIZE]
      simp [this]
    simp [pruneWalk, h]

/-- C5 amended: the code classifies a record's generation `g` as older than
the horizon `h` exactly when `g` is numerically below `h` AND the claimed
modular-distance test holds (for `g < h` the modular distance degenerates to
the plain difference `h - g`, so the second conjunct is `h - g ≤ MAX_DIFF`).
The extra `g < h` conjunct makes the test conservative rather than
wraparound-transparent: a record stamped before a wrap (`g > h`) is never
classified older — never freed prematurely, but retained until the counter
catches up with it. -/
theorem C5_oldness_test (g h : Nat) (hg : g < USIZE) (hh : h < USIZE) :
    isOldB h ⟨g⟩ = true ↔ (g < h ∧ olderSpecTest g h) := by
  rw [isOldB, olderSpecTest, max_diff_eq]
  rw [show USIZE = 18446744073709551616 from by norm_num [USIZE]] at hg hh ⊢
  simp only [Bool.and_eq_true, decide_eq_true_eq, Nat.dist]
  omega

/-- Witness for `C5_oldness_test`: generation 3 against horizon 5. -/
theorem C5_oldness_test_witness :
    isOldB 5 ⟨3⟩ = true ↔ (3 < 5 ∧ olderSpecTest 3 5) :=
  C5_oldness_test 3 5 (by norm_num [USIZE]) (by norm_num [USIZE])

/-- C9: the prune lock is released on every exit path.  A call that finds the
lock already held changes nothing (the flag stays as it was), and a call that
acquires the lock always ends with the flag false again, so a future prune
attempt can acquire it. -/
theorem C9_prune_lock_released {α : Type} (s : AtomicLifo α) (c : Nat) :
    (s.hazard_lock = true → free_hazard_list s c = s) ∧
    (s.hazard_lock = false → (free_hazard_list s c).hazard_lock = false) := by
  constructor
  · intro h
    simp [free_hazard_list, h]
  · intro h
    simp [free_hazard_list, h]

/-- Witness for `C9_prune_lock_released`: both lock states at concrete
inputs. -/
theorem C9_prune_lock_released_witness :
    (free_hazard_list { new (α := Nat) with hazard_lock := true } 3 =
      { new (α := Nat) with hazard_lock := true }) ∧
    (free_hazard_list (new (α := Nat)) 3).hazard_lock = false :=
  ⟨(C9_prune_lock_released { new (α := Nat) with hazard_lock := true } 3).1 rfl,
    (C9_prune_lock_released (new (α := Nat)) 3).2 rfl⟩

/-- A prune pass never touches the in-flight-pop counter. -/
theorem free_hazard_list_count {α : Type} (x : AtomicLifo α) (g : Nat) :
    (free_hazard_list x g).concurrent_pop_count = x.concurrent_pop_count := by
  unfold free_hazard_list
  split <;> rfl

/-- The deferred exit block always decrements the in-flight counter. -/
theorem popExit_count {α : Type} (t : AtomicLifo α) :
    (popExit t).concurrent_pop_count = t.concurrent_pop_count - 1 := by
  simp only [popExit]
  split
  · rfl
  · rw [free_hazard_list_count]

/-- When the decrement does not drain the counter, the exit block changes
nothing but the counter. -/
theorem popExit_no_drain {α : Type} (t : AtomicLifo α)
    (h : t.concurrent_pop_count ≠ 1) :
    popExit t = { t with concurrent_pop_count := t.concurrent_pop_count - 1 } := by
  simp only [popExit]
  rw [if_pos h]

/-- When the decrement drains the counter to zero, the exit block advances
the generation and attempts a prune with the pre-advance generation. -/
theorem popExit_drain {α : Type} (t : AtomicLifo α)
    (h : t.concurrent_pop_count = 1) :
    popExit t =
      free_hazard_list
        { t with concurrent_pop_count := 0
                 hazard_generation := (t.hazard_generation + 1) % USIZE }
        t.hazard_generation := by
  simp only [popExit]
  rw [if_neg (fun hne => hne h), h]

/-- C3: on every exit path (the early absent return and the successful
detach alike), `pop` runs the deferred bookkeeping `popExit`: the in-flight
counter is decremented back to its entry value; exactly when that decrement
drains the counter to zero (entry value 0), the generation counter is
advanced by one (modulo the counter width) and a prune pass is attempted
with the pre-advance generation value as horizon; otherwise only the counter
changes. -/
theorem C3_pop_exit_bookkeeping {α : Type} (s : AtomicLifo α)
    (h1 : s.hazard_threshold ≤ 500000)
    (h2 : s.concurrent_pop_count ≠ USIZE_MAX) :
    ∃ r t, pop s = .ok r (popExit t) ∧
      t.concurrent_pop_count = s.concurrent_pop_count + 1 ∧
      t.hazard_generation = s.hazard_generation ∧
      (popExit t).concurrent_pop_count = s.concurrent_pop_count ∧
      (s.concurrent_pop_count = 0 →
        popExit t =
          free_hazard_list
            { t with concurrent_pop_count := 0
                     hazard_generation := (s.hazard_generation + 1) % USIZE }
            s.hazard_generation) ∧
      (s.concurrent_pop_count ≠ 0 →
        popExit t = { t with concurrent_pop_count := s.concurrent_pop_count })
      := by
  have hexit : ∀ t : AtomicLifo α,
      t.concurrent_pop_count = s.concurrent_pop_count + 1 →
      t.hazard_generation = s.hazard_generation →
      (popExit t).concurrent_pop_count = s.concurrent_pop_count ∧
      (s.concurrent_pop_count = 0 →
        popExit t =
          free_hazard_list
            { t with concurrent_pop_count := 0
                     hazard_generation := (s.hazard_generation + 1) % USIZE }
            s.hazard_generation) ∧
      (s.concurrent_pop_count ≠ 0 →
        popExit t = { t with concurrent_pop_count := s.concurrent_pop_count }) := by
    intro t hc hg
    refine ⟨?_, ?_, ?_⟩
    · rw [popExit_count, hc]
      omega
    · intro h0
      rw [popExit_drain t (by omega), hg]
    · intro h0
      rw [popExit_no_drain t (by omega), hc]
      simp
  rw [pop.eq_def]
  rw [if_neg (by omega), if_neg h2]
  rcases hh : s.head with _ | ⟨v, rest⟩
  · refine ⟨none, { s with concurrent_pop_count := s.concurrent_pop_count + 1 },
      ?_, rfl, rfl, hexit _ rfl rfl⟩
    simp [hh]
  · refine ⟨some v,
      { s with concurrent_pop_count := s.concurrent_pop_count + 1
               head := rest
               hazard_head := ⟨s.hazard_generation⟩ :: s.hazard_head
               hazard_threshold := (s.hazard_threshold + 1) % USIZE },
      ?_, rfl, rfl, hexit _ rfl rfl⟩
    simp [hh]

/-- The deferred exit block never touches the Top pointer. -/
theorem popExit_head {α : Type} (t : AtomicLifo α) :
    (popExit t).head = t.head := by
  simp only [popExit]
  split
  · rfl
  · unfold free_hazard_list
    split <;> rfl

/-- C6 counterexample: a pop on a freshly constructed (hence empty and
quiescent) stack returns the absent result but is NOT free of side effects:
the deferred exit bookkeeping drains the in-flight counter to zero and
therefore advances the generation counter from 0 to 1. -/
theorem C6_counterexample :
    (new (α := Nat)).head = [] ∧
    (runPop (new (α := Nat))).1 = none ∧
    (runPop (new (α := Nat))).2.hazard_generation = 1 ∧
    (new (α := Nat)).hazard_generation = 0 := by
  refine ⟨rfl, ?_, ?_, rfl⟩
  · rw [runPop, pop_quiet_nil new ⟨rfl, rfl, rfl⟩ rfl]
  · rw [runPop, pop_quiet_nil new ⟨rfl, rfl, rfl⟩ rfl]
    rfl

/-- C6 amended: a pop on a stack whose Top is null returns the absent result
and leaves the Top pointer untouched and the in-flight counter at its entry
value; if the counter was nonzero at entry (other pops in flight) the call
has no side effect at all (every field is unchanged); if the counter was
zero, the mandatory exit bookkeeping still runs: the generation counter
advances by one and a prune pass is attempted with the pre-advance
generation, which may reset the retirements counter and truncate the
retirement list. -/
theorem C6_empty_pop (s : AtomicLifo Nat) (hh : s.head = [])
    (h1 : s.hazard_threshold ≤ 500000)
    (h2 : s.concurrent_pop_count ≠ USIZE_MAX) :
    ∃ s', pop s = .ok none s' ∧ s'.head = s.head ∧
      s'.concurrent_pop_count = s.concurrent_pop_count ∧
      (s.concurrent_pop_count ≠ 0 → s' = s) ∧
      (s.concurrent_pop_count = 0 →
        s' = free_hazard_list
          { s with hazard_generation := (s.hazard_generation + 1) % USIZE }
          s.hazard_generation) := by
  refine ⟨popExit { s with concurrent_pop_count := s.concurrent_pop_count + 1 },
    ?_, ?_, ?_, ?_, ?_⟩
  · rw [pop.eq_def]
    rw [if_neg (by omega), if_neg h2]
    simp [hh]
  · rw [popExit_head, hh]
  · rw [popExit_count]
    simp
  · intro h0
    rw [popExit_no_drain _ (by show s.concurrent_pop_count + 1 ≠ 1; omega)]
    simp
  · intro h0
    rw [popExit_drain _ (by show s.concurrent_pop_count + 1 = 1; omega)]
    simp [h0]

/-- Witness for `C6_empty_pop`: an empty stack with three pops in flight. -/
theorem C6_empty_pop_witness :
    ∃ s', pop { new (α := Nat) with concurrent_pop_count := 3 } = .ok none s' ∧
      s'.head = { new (α := Nat) with concurrent_pop_count := 3 }.head ∧
      s'.concurrent_pop_count =
        { new (α := Nat) with concurrent_pop_count := 3 }.concurrent_pop_count ∧
      ({ new (α := Nat) with concurrent_pop_count := 3 }.concurrent_pop_count ≠ 0 →
        s' = { new (α := Nat) with concurrent_pop_count := 3 }) ∧
      ({ new (α := Nat) with concurrent_pop_count := 3 }.concurrent_pop_count = 0 →
        s' = free_hazard_list
          { { new (α := Nat) with concurrent_pop_count := 3 } with
              hazard_generation :=
                ({ new (α := Nat) with
                    concurrent_pop_count := 3 }.hazard_generation + 1) % USIZE }
          { new (α := Nat) with concurrent_pop_count := 3 }.hazard_generation) :=
  C6_empty_pop { new (α := Nat) with concurrent_pop_count := 3 } rfl
    (by norm_num [new]) (by rw [usize_max_eq]; norm_num [new])

/-- C7: once past the entry backpressure valve (`hazard_threshold` at most
500000), `pop` has exactly two caller-visible outcomes — `.ok` carrying the
element or the absent result — and panics if and only if the in-flight-pop
counter equals `usize::MAX` at entry (so that incrementing it would
overflow); below that maximum it never panics and reports no other error. -/
theorem C7_pop_outcomes {α : Type} (s : AtomicLifo α)
    (h1 : s.hazard_threshold ≤ 500000) :
    (pop s = .panics ↔ s.concurrent_pop_count = USIZE_MAX) ∧
    (s.concurrent_pop_count ≠ USIZE_MAX → ∃ r s', pop s = .ok r s') := by
  rw [pop.eq_def, if_neg (by omega)]
  by_cases h2 : s.concurrent_pop_count = USIZE_MAX
  · rw [if_pos h2]
    exact ⟨⟨fun _ => h2, fun _ => rfl⟩, fun hne => absurd h2 hne⟩
  · rw [if_neg h2]
    constructor
    · constructor
      · intro hcon
        rcases hh : s.head with _ | ⟨v, rest⟩ <;> simp [hh] at hcon
      · intro h
        exact absurd h h2
    · intro _
      rcases hh : s.head with _ | ⟨v, rest⟩
      · exact ⟨none,
          popExit { s with concurrent_pop_count := s.concurrent_pop_count + 1 },
          by simp [hh]⟩
      · exact ⟨some v,
          popExit
            { s with concurrent_pop_count := s.concurrent_pop_count + 1
                     head := rest
                     hazard_head := ⟨s.hazard_generation⟩ :: s.hazard_head
                     hazard_threshold := (s.hazard_threshold + 1) % USIZE },
          by simp [hh]⟩

/-- Witness for `C7_pop_outcomes` on a fresh stack. -/
theorem C7_pop_outcomes_witness :
    (pop (new (α := Nat)) = .panics ↔
      (new (α := Nat)).concurrent_pop_count = USIZE_MAX) ∧
    ((new (α := Nat)).concurrent_pop_count ≠ USIZE_MAX →
      ∃ r s', pop (new (α := Nat)) = .ok r s') :=
  C7_pop_outcomes new (by norm_num [new])

/-- Witness for `C3_pop_exit_bookkeeping` on a fresh stack. -/
theorem C3_pop_exit_bookkeeping_witness :
    ∃ r t, pop (new (α := Nat)) = .ok r (popExit t) ∧
      t.concurrent_pop_count = (new (α := Nat)).concurrent_pop_count + 1 ∧
      t.hazard_generation = (new (α := Nat)).hazard_generation ∧
      (popExit t).concurrent_pop_count = (new (α := Nat)).concurrent_pop_count ∧
      ((new (α := Nat)).concurrent_pop_count = 0 →
        popExit t =
          free_hazard_list
            { t with concurrent_pop_count := 0
                     hazard_generation :=
                       ((new (α := Nat)).hazard_generation + 1) % USIZE }
            (new (α := Nat)).hazard_generation) ∧
      ((new (α := Nat)).concurrent_pop_count ≠ 0 →
        popExit t = { t with
          concurrent_pop_count := (new (α := Nat)).concurrent_pop_count }) :=
  C3_pop_exit_bookkeeping new (by norm_num [new])
    (by rw [usize_max_eq]; norm_num [new])
